import Mathlib

/-!
Verification of the numeric core of the Wealth Architecture Suite
(`src/app.py`): the leakage analyzer, the opportunity-cost (future value
of annuity) formula, the wealth projection recurrence, and the iterative
debt-payoff simulator with its avalanche/snowball ordering policy.

Python floats are modelled as exact rationals (ℚ); Python dicts
`{"balance": b, "rate": r}` as the structure `Debt`.  Because the Python
simulator mutates the caller's dict objects in place (the `sorted` call
builds a new list around the same dict references), the embedding tags
each debt with its position in the caller's list and returns, next to the
month count, the final state of the caller's records in their original
order.
-/

/-- A debt record: `{"balance": ..., "rate": ...}` in `src/app.py`. -/
structure Debt where
  balance : ℚ
  rate : ℚ
deriving DecidableEq, Repr

/-- A debt together with its index in the caller's list; the index models
the identity of the underlying Python dict object. -/
abbrev TaggedDebt := Nat × Debt

/-- The sort key of `debt_payoff`:
`x["balance"] if method == "snowball" else -x["rate"]`. -/
def sortKey (method : String) (d : Debt) : ℚ :=
  if method = "snowball" then d.balance else -d.rate

/-- Boolean comparison used to sort the debts (Python `sorted` is a stable
ascending sort by key, as is `List.mergeSort`). -/
def debtLE (method : String) (a b : TaggedDebt) : Bool :=
  decide (sortKey method a.2 ≤ sortKey method b.2)

/-- `debts = sorted(debts, key=...)` — the attack order, computed once
before the monthly loop. -/
def attackOrder (method : String) (ds : List TaggedDebt) : List TaggedDebt :=
  ds.mergeSort (debtLE method)

/-- The payment walk of one month: `for debt in debts: if debt["balance"] > 0
and remaining > 0: pay = min(remaining, debt["balance"]); ...`.  Returns the
remaining payment budget and the updated debts. -/
def payStep : ℚ → List TaggedDebt → ℚ × List TaggedDebt
  | remaining, [] => (remaining, [])
  | remaining, d :: rest =>
    if 0 < d.2.balance ∧ 0 < remaining then
      let pay := min remaining d.2.balance
      let next := payStep (remaining - pay) rest
      (next.1, (d.1, ⟨d.2.balance - pay, d.2.rate⟩) :: next.2)
    else
      let next := payStep remaining rest
      (next.1, d :: next.2)

/-- The interest walk of one month: every debt with positive balance accrues
one month of interest, `debt["balance"] *= (1 + debt["rate"] / 12)`. -/
def accrue (ds : List TaggedDebt) : List TaggedDebt :=
  ds.map fun d =>
    if 0 < d.2.balance then (d.1, ⟨d.2.balance * (1 + d.2.rate / 12), d.2.rate⟩) else d

/-- `any(d["balance"] > 0 for d in debts)`. -/
def anyPositive (ds : List TaggedDebt) : Bool :=
  ds.any fun d => decide (0 < d.2.balance)

/-- One iteration of the `while` loop body: payments, then interest. -/
def monthStep (P : ℚ) (ds : List TaggedDebt) : List TaggedDebt :=
  accrue (payStep P ds).2

/-- The `while any(...) and months < 1000` loop.  The `fuel` argument only
makes the recursion structural: the loop is entered with `fuel = 1000` and
`months = 0`, and since `months` grows by one each iteration while the guard
requires `months < 1000`, the guard fails no later than the fuel runs out,
so the fuel never cuts a run short. -/
def runLoop (P : ℚ) : Nat → Nat → List TaggedDebt → Nat × List TaggedDebt
  | 0, months, ds => (months, ds)
  | fuel + 1, months, ds =>
    if anyPositive ds ∧ months < 1000 then
      runLoop P fuel (months + 1) (monthStep P ds)
    else (months, ds)

/-- `debt_payoff(debts, monthly_payment, method)` of `src/app.py`.  The first
component is the returned `months`; the second is the caller's debt records
after the call (in the caller's original order), which the Python code
mutates through the shared dict references. -/
def debt_payoff (debts : List Debt) (monthly_payment : ℚ) (method : String) :
    Nat × List Debt :=
  let result := runLoop monthly_payment 1000 0 (attackOrder method debts.enum)
  (result.1,
   (List.range debts.length).filterMap fun i =>
     (result.2.find? fun d => d.1 == i).map fun d => d.2)

/-- The value the Python function returns: the month count alone. -/
def payoffMonths (debts : List Debt) (monthly_payment : ℚ) (method : String) : Nat :=
  (debt_payoff debts monthly_payment method).1

/-- Total balance of a tagged working set. -/
def totalBal (ds : List TaggedDebt) : ℚ :=
  (ds.map fun d => d.2.balance).sum

/-- Total monthly interest that would accrue on a portfolio as handed to the
simulator: the sum of `balance * rate / 12` over the debts. -/
def monthlyInterest (debts : List Debt) : ℚ :=
  (debts.map fun d => d.balance * d.rate / 12).sum

/-- Total balance of a plain debt list. -/
def totalDebt (debts : List Debt) : ℚ :=
  (debts.map Debt.balance).sum

/-- `calculate_annual_leakage(assets, tax_rate, inflation_rate, interest_rate)`
of `src/app.py`: returns `(inflation_loss, tax_loss, interest_drag, total)`. -/
def calculate_annual_leakage (assets tax_rate inflation_rate interest_rate : ℚ) :
    ℚ × ℚ × ℚ × ℚ :=
  (assets * inflation_rate, assets * tax_rate, assets * interest_rate,
   assets * inflation_rate + assets * tax_rate + assets * interest_rate)

/-- `opportunity_cost(monthly_amount, annual_rate, years)` of `src/app.py`:
the closed-form future value of an annuity, with the zero-rate branch. -/
def opportunity_cost (monthly_amount annual_rate : ℚ) (years : Nat) : ℚ :=
  let months := years * 12
  let monthly_rate := annual_rate / 12
  if monthly_rate = 0 then monthly_amount * (months : ℚ)
  else monthly_amount * ((1 + monthly_rate) ^ months - 1) / monthly_rate

/-- Modelled from the spec (section 4.3, strategy (ii), not present in
`src/app.py`): the iterative accumulation written there as
`value = 0; repeat n times: value = (value + periodicAmount) * (1 + r)` —
the deposit is added before the period's growth is applied. -/
def annuityIterSpec (amount r : ℚ) : Nat → ℚ
  | 0 => 0
  | n + 1 => (annuityIterSpec amount r n + amount) * (1 + r)

/-- Modelled from the spec as amended: the iterative accumulation with the
deposit added after the period's growth,
`value = 0; repeat n times: value = value * (1 + r) + periodicAmount`.
This is the iteration the closed form of `opportunity_cost` actually sums. -/
def annuityIterEnd (amount r : ℚ) : Nat → ℚ
  | 0 => 0
  | n + 1 => annuityIterEnd amount r n * (1 + r) + amount

/-- The body of the wealth projection loop of `src/app.py`
(`for _ in range(years + 1): wealth_projection.append(current_val);
current_val = (current_val + monthly_surplus * 12) * (1 + real_rate)`),
with the number of remaining iterations explicit. -/
def projectLoop (surplus12 real_rate : ℚ) : Nat → ℚ → List ℚ
  | 0, _ => []
  | n + 1, current_val =>
    current_val :: projectLoop surplus12 real_rate n ((current_val + surplus12) * (1 + real_rate))

/-- The `wealth_projection` list built in `src/app.py`: `years + 1` loop
iterations starting from `assets`, with annualized surplus
`monthly_surplus * 12` added before each compounding step. -/
def wealth_projection (assets monthly_surplus real_rate : ℚ) (years : Nat) : List ℚ :=
  projectLoop (monthly_surplus * 12) real_rate (years + 1) assets

/-! ### Basic lemmas about the simulator's building blocks -/

theorem totalBal_nil : totalBal [] = 0 := rfl

theorem totalBal_cons (d : TaggedDebt) (t : List TaggedDebt) :
    totalBal (d :: t) = d.2.balance + totalBal t := by
  simp [totalBal]

theorem runLoop_go (P : ℚ) (fuel months : Nat) (ds : List TaggedDebt)
    (h1 : anyPositive ds = true) (h2 : months < 1000) :
    runLoop P (fuel + 1) months ds = runLoop P fuel (months + 1) (monthStep P ds) := by
  simp [runLoop, h1, h2]

theorem runLoop_stop (P : ℚ) (fuel months : Nat) (ds : List TaggedDebt)
    (h1 : anyPositive ds = false) :
    runLoop P (fuel + 1) months ds = (months, ds) := by
  simp [runLoop, h1]

theorem payStep_map_fst (r : ℚ) (ds : List TaggedDebt) :
    (payStep r ds).2.map Prod.fst = ds.map Prod.fst := by
  induction ds generalizing r with
  | nil => rfl
  | cons d rest ih =>
    by_cases h : 0 < d.2.balance ∧ 0 < r
    · simp only [payStep, if_pos h]
      simp [ih]
    · simp only [payStep, if_neg h]
      simp [ih]

theorem payStep_fst_nonneg (r : ℚ) (ds : List TaggedDebt) (hr : 0 ≤ r) :
    0 ≤ (payStep r ds).1 := by
  induction ds generalizing r with
  | nil => exact hr
  | cons d rest ih =>
    by_cases h : 0 < d.2.balance ∧ 0 < r
    · simp only [payStep, if_pos h]
      exact ih _ (by simp [sub_nonneg, min_le_left])
    · simp only [payStep, if_neg h]
      exact ih _ hr

theorem payStep_totalBal (r : ℚ) (ds : List TaggedDebt) :
    totalBal (payStep r ds).2 + r = totalBal ds + (payStep r ds).1 := by
  induction ds generalizing r with
  | nil => rfl
  | cons d rest ih =>
    by_cases h : 0 < d.2.balance ∧ 0 < r
    · simp only [payStep, if_pos h]
      have := ih (r - min r d.2.balance)
      simp only [totalBal_cons] at this ⊢
      linarith
    · simp only [payStep, if_neg h]
      have := ih r
      simp only [totalBal_cons] at this ⊢
      linarith

theorem payStep_forall₂ (r : ℚ) (ds : List TaggedDebt) (hr : 0 ≤ r)
    (hds : ∀ d ∈ ds, 0 ≤ d.2.balance) :
    List.Forall₂ (fun d d' : TaggedDebt =>
      d'.1 = d.1 ∧ d'.2.rate = d.2.rate ∧ 0 ≤ d'.2.balance ∧ d'.2.balance ≤ d.2.balance)
      ds (payStep r ds).2 := by
  induction ds generalizing r with
  | nil => exact List.Forall₂.nil
  | cons d rest ih =>
    have hd := hds d (List.mem_cons_self d rest)
    have hrest : ∀ x ∈ rest, 0 ≤ x.2.balance := fun x hx => hds x (List.mem_cons_of_mem d hx)
    by_cases h : 0 < d.2.balance ∧ 0 < r
    · simp only [payStep, if_pos h]
      refine List.forall₂_cons.2 ⟨⟨rfl, rfl, ?_, ?_⟩, ih _ (by simp [sub_nonneg, min_le_left]) hrest⟩
      · show 0 ≤ d.2.balance - min r d.2.balance
        simp [sub_nonneg, min_le_right]
      · show d.2.balance - min r d.2.balance ≤ d.2.balance
        have h0 : 0 ≤ min r d.2.balance := le_min h.2.le hd
        linarith
    · simp only [payStep, if_neg h]
      exact List.forall₂_cons.2 ⟨⟨rfl, rfl, hd, le_refl _⟩, ih r hr hrest⟩

theorem forall₂_mem_right {p : TaggedDebt → TaggedDebt → Prop} :
    ∀ {as bs : List TaggedDebt}, List.Forall₂ p as bs → ∀ b ∈ bs, ∃ a ∈ as, p a b := by
  intro as bs h
  induction h with
  | nil => intro b hb; exact absurd hb (List.not_mem_nil b)
  | cons hab _ ih =>
    intro b hb
    rcases List.mem_cons.1 hb with rfl | hb
    · exact ⟨_, List.mem_cons_self _ _, hab⟩
    · obtain ⟨a, ha, hpa⟩ := ih b hb
      exact ⟨a, List.mem_cons_of_mem _ ha, hpa⟩

theorem accrue_map_fst (ds : List TaggedDebt) :
    (accrue ds).map Prod.fst = ds.map Prod.fst := by
  induction ds with
  | nil => rfl
  | cons d t ih =>
    by_cases h : 0 < d.2.balance <;> simp [accrue, h] <;> simpa [accrue] using ih

theorem accrue_mem (ds : List TaggedDebt) (d' : TaggedDebt) (h : d' ∈ accrue ds) :
    ∃ d ∈ ds, d'.1 = d.1 ∧ d'.2.rate = d.2.rate ∧
      (d'.2.balance = d.2.balance ∨ d'.2.balance = d.2.balance * (1 + d.2.rate / 12)) := by
  obtain ⟨d, hd, hmap⟩ := List.mem_map.1 h
  by_cases hb : 0 < d.2.balance
  · rw [if_pos hb] at hmap
    exact ⟨d, hd, by rw [← hmap], by rw [← hmap], Or.inr (by rw [← hmap])⟩
  · rw [if_neg hb] at hmap
    exact ⟨d, hd, by rw [← hmap], by rw [← hmap], Or.inl (by rw [← hmap])⟩

theorem accrue_totalBal_ge (j : ℚ) (hj : 0 ≤ j) (ds : List TaggedDebt)
    (h : ∀ d ∈ ds, 0 ≤ d.2.balance ∧ j ≤ d.2.rate) :
    (1 + j / 12) * totalBal ds ≤ totalBal (accrue ds) := by
  induction ds with
  | nil => simp [accrue, totalBal_nil]
  | cons d t ih =>
    have hd := h d (List.mem_cons_self d t)
    have ht := ih fun x hx => h x (List.mem_cons_of_mem d hx)
    have hhead : (1 + j / 12) * d.2.balance ≤
        (if 0 < d.2.balance then
          (d.1, (⟨d.2.balance * (1 + d.2.rate / 12), d.2.rate⟩ : Debt)) else d).2.balance := by
      by_cases hb : 0 < d.2.balance
      · rw [if_pos hb]
        show (1 + j / 12) * d.2.balance ≤ d.2.balance * (1 + d.2.rate / 12)
        have : d.2.balance * (1 + j / 12) ≤ d.2.balance * (1 + d.2.rate / 12) := by
          apply mul_le_mul_of_nonneg_left _ hd.1
          linarith [hd.2]
        linarith
      · rw [if_neg hb]
        have hb0 : d.2.balance = 0 := le_antisymm (not_lt.1 hb) hd.1
        rw [hb0]
        simp
    have hstep : accrue (d :: t) =
        (if 0 < d.2.balance then
          (d.1, (⟨d.2.balance * (1 + d.2.rate / 12), d.2.rate⟩ : Debt)) else d) :: accrue t := by
      simp [accrue]
    rw [hstep, totalBal_cons, totalBal_cons]
    nlinarith [hhead, ht]

theorem monthStep_map_fst (P : ℚ) (ds : List TaggedDebt) :
    (monthStep P ds).map Prod.fst = ds.map Prod.fst := by
  rw [monthStep, accrue_map_fst, payStep_map_fst]

theorem monthStep_preserves (P j : ℚ) (hP : 0 ≤ P) (_hj : 0 ≤ j) (ds : List TaggedDebt)
    (h : ∀ d ∈ ds, 0 ≤ d.2.balance ∧ j ≤ d.2.rate) :
    ∀ d' ∈ monthStep P ds, 0 ≤ d'.2.balance ∧ j ≤ d'.2.rate := by
  intro d' hd'
  have hpay := payStep_forall₂ P ds hP fun d hd => (h d hd).1
  obtain ⟨dmid, hdmid, hid, hrate, hbal⟩ := accrue_mem _ d' hd'
  obtain ⟨d0, hd0, _, hrate0, hbal0, _⟩ := forall₂_mem_right hpay dmid hdmid
  have hrged : j ≤ dmid.2.rate := hrate0 ▸ (h d0 hd0).2
  constructor
  · rcases hbal with hb | hb
    · rw [hb]; exact hbal0
    · rw [hb]
      have : (0 : ℚ) ≤ 1 + dmid.2.rate / 12 := by linarith
      exact mul_nonneg hbal0 this
  · rw [hrate]; exact hrged

theorem monthStep_totalBal_ge (P j : ℚ) (hP : 0 ≤ P) (hj : 0 ≤ j) (ds : List TaggedDebt)
    (h : ∀ d ∈ ds, 0 ≤ d.2.balance ∧ j ≤ d.2.rate) :
    (1 + j / 12) * (totalBal ds - P) ≤ totalBal (monthStep P ds) := by
  have hpay := payStep_forall₂ P ds hP fun d hd => (h d hd).1
  have hsum := payStep_totalBal P ds
  have hrem := payStep_fst_nonneg P ds hP
  have hmid : ∀ d' ∈ (payStep P ds).2, 0 ≤ d'.2.balance ∧ j ≤ d'.2.rate := by
    intro d' hd'
    obtain ⟨d0, hd0, _, hrate0, hbal0, _⟩ := forall₂_mem_right hpay d' hd'
    exact ⟨hbal0, hrate0 ▸ (h d0 hd0).2⟩
  have haccrue := accrue_totalBal_ge j hj (payStep P ds).2 hmid
  have hge : totalBal ds - P ≤ totalBal (payStep P ds).2 := by linarith
  have hmul : (1 + j / 12) * (totalBal ds - P) ≤ (1 + j / 12) * totalBal (payStep P ds).2 :=
    mul_le_mul_of_nonneg_left hge (by linarith)
  calc (1 + j / 12) * (totalBal ds - P) ≤ (1 + j / 12) * totalBal (payStep P ds).2 := hmul
    _ ≤ totalBal (accrue (payStep P ds).2) := haccrue
    _ = totalBal (monthStep P ds) := rfl

theorem anyPositive_of_total (ds : List TaggedDebt)
    (h : ∀ d ∈ ds, 0 ≤ d.2.balance) (hpos : 0 < totalBal ds) :
    anyPositive ds = true := by
  induction ds with
  | nil => simp [totalBal_nil] at hpos
  | cons d t ih =>
    rw [totalBal_cons] at hpos
    by_cases hb : 0 < d.2.balance
    · simp [anyPositive, hb]
    · have hb0 : d.2.balance = 0 :=
        le_antisymm (not_lt.1 hb) (h d (List.mem_cons_self d t))
      have ht : 0 < totalBal t := by rw [hb0] at hpos; linarith
      have := ih (fun x hx => h x (List.mem_cons_of_mem d hx)) ht
      simp [anyPositive] at this ⊢
      exact Or.inr this

theorem runLoop_map_fst (P : ℚ) :
    ∀ (fuel months : Nat) (ds : List TaggedDebt),
      (runLoop P fuel months ds).2.map Prod.fst = ds.map Prod.fst := by
  intro fuel
  induction fuel with
  | zero => intro months ds; rfl
  | succ fuel ih =>
    intro months ds
    by_cases h : anyPositive ds = true ∧ months < 1000
    · rw [runLoop_go P fuel months ds h.1 h.2, ih, monthStep_map_fst]
    · rw [runLoop]
      rw [if_neg (by simpa using h)]

theorem runLoop_result_le (P : ℚ) :
    ∀ (fuel months : Nat) (ds : List TaggedDebt), months + fuel ≤ 1000 →
      (runLoop P fuel months ds).1 ≤ 1000 := by
  intro fuel
  induction fuel with
  | zero => intro months ds h; simpa [runLoop] using h
  | succ fuel ih =>
    intro months ds h
    by_cases hg : anyPositive ds = true ∧ months < 1000
    · rw [runLoop_go P fuel months ds hg.1 hg.2]
      exact ih (months + 1) _ (by omega)
    · rw [runLoop, if_neg (by simpa using hg)]
      omega

theorem runLoop_ceiling (P j B₀ : ℚ) (hP : 0 ≤ P) (hj : 0 < j) (hB₀ : 0 < B₀)
    (hcond : P * (1 + j / 12) ≤ j / 12 * B₀) :
    ∀ (fuel months : Nat) (ds : List TaggedDebt), months + fuel = 1000 →
      (∀ d ∈ ds, 0 ≤ d.2.balance ∧ j ≤ d.2.rate) → B₀ ≤ totalBal ds →
      (runLoop P fuel months ds).1 = 1000 := by
  intro fuel
  induction fuel with
  | zero => intro months ds h _ _; simpa [runLoop] using h
  | succ fuel ih =>
    intro months ds h hgood htot
    have hany : anyPositive ds = true :=
      anyPositive_of_total ds (fun d hd => (hgood d hd).1) (lt_of_lt_of_le hB₀ htot)
    have hm : months < 1000 := by omega
    rw [runLoop_go P fuel months ds hany hm]
    apply ih (months + 1) _ (by omega)
    · exact monthStep_preserves P j hP hj.le ds hgood
    · have hstep := monthStep_totalBal_ge P j hP hj.le ds hgood
      have h1 : j / 12 * B₀ ≤ j / 12 * totalBal ds :=
        mul_le_mul_of_nonneg_left htot (by positivity)
      have e1 : (1 + j / 12) * (totalBal ds - P) =
          totalBal ds + (j / 12 * totalBal ds - P * (1 + j / 12)) := by ring
      linarith

/-! ### Transport from the caller's debt list to the sorted working set -/

theorem attackOrder_mem (method : String) (debts : List Debt) (d : TaggedDebt)
    (h : d ∈ attackOrder method debts.enum) : d.2 ∈ debts := by
  have hperm := List.mergeSort_perm debts.enum (debtLE method)
  have henum : d ∈ debts.enum := hperm.mem_iff.1 h
  have : d.2 ∈ List.map Prod.snd debts.enum := List.mem_map_of_mem Prod.snd henum
  rwa [List.enum_map_snd] at this

theorem attackOrder_totalBal (method : String) (debts : List Debt) :
    totalBal (attackOrder method debts.enum) = totalDebt debts := by
  have hperm := List.mergeSort_perm debts.enum (debtLE method)
  have hmap := hperm.map fun d : TaggedDebt => d.2.balance
  rw [totalBal, totalDebt, attackOrder, hmap.sum_eq]
  have : (fun d : TaggedDebt => d.2.balance) = Debt.balance ∘ Prod.snd := rfl
  rw [this, ← List.map_map, List.enum_map_snd]

/-! ### Annuity and projection helper lemmas -/

theorem annuityIterEnd_mul (a r : ℚ) : ∀ n : Nat,
    annuityIterEnd a r n * r = a * ((1 + r) ^ n - 1)
  | 0 => by simp [annuityIterEnd]
  | n + 1 => by
    have ih := annuityIterEnd_mul a r n
    calc annuityIterEnd a r (n + 1) * r
        = (annuityIterEnd a r n * r) * (1 + r) + a * r := by
          simp only [annuityIterEnd]; ring
      _ = a * ((1 + r) ^ n - 1) * (1 + r) + a * r := by rw [ih]
      _ = a * ((1 + r) ^ (n + 1) - 1) := by ring

theorem annuityIterEnd_zero_rate (a : ℚ) : ∀ n : Nat, annuityIterEnd a 0 n = a * n
  | 0 => by simp [annuityIterEnd]
  | n + 1 => by
    have ih := annuityIterEnd_zero_rate a n
    simp only [annuityIterEnd, ih]
    push_cast
    ring

theorem annuityIterSpec_eq_end (a r : ℚ) : ∀ n : Nat,
    annuityIterSpec a r n = annuityIterEnd a r n * (1 + r)
  | 0 => by simp [annuityIterSpec, annuityIterEnd]
  | n + 1 => by
    have ih := annuityIterSpec_eq_end a r n
    simp only [annuityIterSpec, annuityIterEnd, ih]

theorem projectLoop_length (s r : ℚ) : ∀ (n : Nat) (c : ℚ), (projectLoop s r n c).length = n
  | 0, _ => rfl
  | n + 1, c => by simp [projectLoop, projectLoop_length s r n]

theorem projectLoop_getD_succ (s r : ℚ) : ∀ (n : Nat) (c : ℚ) (k : Nat), k + 1 < n →
    (projectLoop s r n c).getD (k + 1) 0
      = ((projectLoop s r n c).getD k 0 + s) * (1 + r)
  | 0, _, _, h => absurd h (by omega)
  | n + 1, c, 0, h => by
    obtain ⟨m, rfl⟩ : ∃ m, n = m + 1 := ⟨n - 1, by omega⟩
    simp only [projectLoop, List.getD_cons_succ, List.getD_cons_zero]
  | n + 1, c, k + 1, h => by
    have ih := projectLoop_getD_succ s r n ((c + s) * (1 + r)) k (by omega)
    simpa only [projectLoop, List.getD_cons_succ] using ih

theorem projectLoop_const (c : ℚ) : ∀ n : Nat, projectLoop 0 0 n c = List.replicate n c
  | 0 => rfl
  | n + 1 => by simp [projectLoop, projectLoop_const c n, List.replicate_succ]

/-! ### Claim theorems -/

/-- C8: the leakage analyzer returns `inflationLoss = assets * inflationRate`,
`taxLoss = assets * taxRate`, `interestDrag = assets * interestRate`, and a
total exactly equal to the sum of the three components; each component is
linear in `assets` (doubling `assets` doubles each component). -/
theorem calculate_annual_leakage_spec (assets tax_rate inflation_rate interest_rate : ℚ) :
    (calculate_annual_leakage assets tax_rate inflation_rate interest_rate).1
        = assets * inflation_rate ∧
    (calculate_annual_leakage assets tax_rate inflation_rate interest_rate).2.1
        = assets * tax_rate ∧
    (calculate_annual_leakage assets tax_rate inflation_rate interest_rate).2.2.1
        = assets * interest_rate ∧
    (calculate_annual_leakage assets tax_rate inflation_rate interest_rate).2.2.2
        = (calculate_annual_leakage assets tax_rate inflation_rate interest_rate).1
          + (calculate_annual_leakage assets tax_rate inflation_rate interest_rate).2.1
          + (calculate_annual_leakage assets tax_rate inflation_rate interest_rate).2.2.1 ∧
    (calculate_annual_leakage (2 * assets) tax_rate inflation_rate interest_rate).1
        = 2 * (calculate_annual_leakage assets tax_rate inflation_rate interest_rate).1 ∧
    (calculate_annual_leakage (2 * assets) tax_rate inflation_rate interest_rate).2.1
        = 2 * (calculate_annual_leakage assets tax_rate inflation_rate interest_rate).2.1 ∧
    (calculate_annual_leakage (2 * assets) tax_rate inflation_rate interest_rate).2.2.1
        = 2 * (calculate_annual_leakage assets tax_rate inflation_rate interest_rate).2.2.1 := by
  refine ⟨rfl, rfl, rfl, rfl, ?_, ?_, ?_⟩ <;>
    · simp only [calculate_annual_leakage]
      ring

/-- C9: calling the debt-payoff simulator with an empty debt list returns 0
months, for every monthly payment and strategy (the loop guard fails at
once). -/
theorem payoffMonths_empty (P : ℚ) (method : String) : payoffMonths [] P method = 0 := by
  have h : attackOrder method ([] : List TaggedDebt) = [] := by
    simp [attackOrder]
  have hr : runLoop P 1000 0 ([] : List TaggedDebt) = (0, []) := by
    rw [show (1000 : Nat) = 999 + 1 from rfl]
    exact runLoop_stop P 999 0 [] (by simp [anyPositive])
  simp [payoffMonths, debt_payoff, h, hr]

/-- C7: when the periodic rate `annualRate / 12` is exactly zero, the
future-value-of-annuity computation returns the linear degenerate value
`periodicAmount * n` with `n = years * 12`, and the closed-form division is
never evaluated. -/
theorem opportunity_cost_zero_rate (a rate : ℚ) (years : Nat) (h : rate / 12 = 0) :
    opportunity_cost a rate years = a * ((years * 12 : Nat) : ℚ) := by
  simp only [opportunity_cost]
  rw [if_pos h]

/-- Witness for C7 at a concrete input. -/
theorem opportunity_cost_zero_rate_witness :
    opportunity_cost 5 0 3 = 5 * ((3 * 12 : Nat) : ℚ) :=
  opportunity_cost_zero_rate 5 0 3 (by norm_num)

/-- C3: the wealth projection has length `periods + 1`, starts at
`startingAssets`, and satisfies
`balance[n+1] = (balance[n] + periodicSurplusAnnualized) * (1 + realRate)`
for `0 ≤ n < periods`, where `periodicSurplusAnnualized` is the
`monthly_surplus * 12` the source adds before compounding; with zero rate and
zero surplus every element equals `startingAssets`. -/
theorem wealth_projection_spec (assets monthly_surplus real_rate : ℚ) (years : Nat) :
    (wealth_projection assets monthly_surplus real_rate years).length = years + 1 ∧
    (wealth_projection assets monthly_surplus real_rate years).getD 0 0 = assets ∧
    (∀ n : Nat, n < years →
      (wealth_projection assets monthly_surplus real_rate years).getD (n + 1) 0
        = ((wealth_projection assets monthly_surplus real_rate years).getD n 0
            + monthly_surplus * 12) * (1 + real_rate)) ∧
    (∀ n : Nat, n ≤ years → (wealth_projection assets 0 0 years).getD n 0 = assets) := by
  refine ⟨projectLoop_length _ _ _ _, rfl, ?_, ?_⟩
  · intro n hn
    exact projectLoop_getD_succ _ _ (years + 1) assets n (by omega)
  · intro n hn
    rw [wealth_projection]
    simp only [zero_mul]
    rw [projectLoop_const, List.getD_eq_getElem?_getD, List.getElem?_replicate,
      if_pos (by omega)]
    rfl

/-- Witness for C3 at concrete inputs. -/
theorem wealth_projection_spec_witness :
    (wealth_projection 1000 0 0 5).getD 3 0 = 1000 ∧
    (wealth_projection 7 1 1 3).getD 1 0
      = ((wealth_projection 7 1 1 3).getD 0 0 + 1 * 12) * (1 + 1) :=
  ⟨(wealth_projection_spec 1000 0 0 5).2.2.2 3 (by norm_num),
   (wealth_projection_spec 7 1 1 3).2.2.1 0 (by norm_num)⟩

/-- C10: the snowball (ascending-balance) key is selected only when the
strategy string is exactly the lowercase "snowball"; any other string —
including the capitalized "Snowball" and "Avalanche" produced at the UI
boundary — silently yields the avalanche (descending-rate) key, the same
attack order, and the same result as "avalanche", with no rejection. -/
theorem debt_payoff_nonsnowball (debts : List Debt) (P : ℚ) (method : String)
    (h : method ≠ "snowball") :
    (∀ d : Debt, sortKey "snowball" d = d.balance) ∧
    (∀ d : Debt, sortKey method d = -d.rate) ∧
    attackOrder method debts.enum = attackOrder "avalanche" debts.enum ∧
    debt_payoff debts P method = debt_payoff debts P "avalanche" := by
  have hk : sortKey method = sortKey "avalanche" := by
    funext d
    rw [sortKey, sortKey, if_neg h, if_neg (by decide)]
  have hle : debtLE method = debtLE "avalanche" := by
    funext a b
    rw [debtLE, debtLE, hk]
  refine ⟨fun d => by rw [sortKey, if_pos rfl], fun d => by rw [sortKey, if_neg h], ?_, ?_⟩
  · rw [attackOrder, attackOrder, hle]
  · simp only [debt_payoff, attackOrder, hle]

/-- Witness for C10: the UI string "Snowball" is not the lowercase
"snowball" and gets the avalanche behavior. -/
theorem debt_payoff_nonsnowball_witness :
    attackOrder "Snowball" ([⟨100, 0⟩] : List Debt).enum
      = attackOrder "avalanche" ([⟨100, 0⟩] : List Debt).enum ∧
    debt_payoff [⟨100, 0⟩] 5 "Snowball" = debt_payoff [⟨100, 0⟩] 5 "avalanche" :=
  ⟨(debt_payoff_nonsnowball [⟨100, 0⟩] 5 "Snowball" (by decide)).2.2.1,
   (debt_payoff_nonsnowball [⟨100, 0⟩] 5 "Snowball" (by decide)).2.2.2⟩

/-- Balances and rates stay nonnegative through any number of monthly steps. -/
theorem iterate_good (P : ℚ) (hP : 0 ≤ P) (ds : List TaggedDebt)
    (h : ∀ d ∈ ds, 0 ≤ d.2.balance ∧ 0 ≤ d.2.rate) (k : Nat) :
    ∀ d' ∈ (monthStep P)^[k] ds, 0 ≤ d'.2.balance ∧ 0 ≤ d'.2.rate := by
  induction k with
  | zero => exact h
  | succ k ih =>
    rw [Function.iterate_succ_apply']
    exact monthStep_preserves P 0 hP le_rfl _ ih

/-- C4: the attack order is computed once, before the monthly loop: for
"snowball" it is sorted by ascending balance, for any other strategy
(avalanche) by descending rate; and the sequence of debt identities the loop
walks is that initial order in every month — after any number of monthly
steps, and in the state the loop ends with, the identity sequence equals the
initial one, so the order is never re-sorted as balances change. -/
theorem attackOrder_fixed_and_sorted (debts : List Debt) (P : ℚ) (method : String) :
    (method = "snowball" →
      List.Pairwise (fun a b : TaggedDebt => a.2.balance ≤ b.2.balance)
        (attackOrder method debts.enum)) ∧
    (method ≠ "snowball" →
      List.Pairwise (fun a b : TaggedDebt => b.2.rate ≤ a.2.rate)
        (attackOrder method debts.enum)) ∧
    (∀ k : Nat, ((monthStep P)^[k] (attackOrder method debts.enum)).map Prod.fst
        = (attackOrder method debts.enum).map Prod.fst) ∧
    (∀ fuel months : Nat,
      (runLoop P fuel months (attackOrder method debts.enum)).2.map Prod.fst
        = (attackOrder method debts.enum).map Prod.fst) := by
  have htrans : ∀ a b c : TaggedDebt, debtLE method a b = true → debtLE method b c = true →
      debtLE method a c = true := by
    intro a b c hab hbc
    simp only [debtLE, decide_eq_true_eq] at hab hbc ⊢
    exact le_trans hab hbc
  have htotal : ∀ a b : TaggedDebt, (debtLE method a b || debtLE method b a) = true := by
    intro a b
    simp only [debtLE, Bool.or_eq_true, decide_eq_true_eq]
    exact le_total _ _
  have hsorted := List.sorted_mergeSort htrans htotal debts.enum
  refine ⟨?_, ?_, ?_, ?_⟩
  · intro hm
    subst hm
    refine hsorted.imp ?_
    intro a b hab
    simp only [debtLE, decide_eq_true_eq] at hab
    rw [sortKey, if_pos rfl, sortKey, if_pos rfl] at hab
    exact hab
  · intro hm
    refine hsorted.imp ?_
    intro a b hab
    simp only [debtLE, decide_eq_true_eq] at hab
    rw [sortKey, if_neg hm, sortKey, if_neg hm] at hab
    exact neg_le_neg_iff.1 hab
  · intro k
    induction k with
    | zero => rfl
    | succ k ih => rw [Function.iterate_succ_apply', monthStep_map_fst, ih]
  · intro fuel months
    exact runLoop_map_fst P fuel months _

/-- Witness for C4: concrete orders for the lowercase "snowball" and the
UI-cased "Avalanche". -/
theorem attackOrder_fixed_and_sorted_witness :
    List.Pairwise (fun a b : TaggedDebt => a.2.balance ≤ b.2.balance)
      (attackOrder "snowball" ([⟨5, 1⟩, ⟨3, 2⟩] : List Debt).enum) ∧
    List.Pairwise (fun a b : TaggedDebt => b.2.rate ≤ a.2.rate)
      (attackOrder "Avalanche" ([⟨5, 1⟩, ⟨3, 2⟩] : List Debt).enum) :=
  ⟨(attackOrder_fixed_and_sorted [⟨5, 1⟩, ⟨3, 2⟩] 0 "snowball").1 rfl,
   (attackOrder_fixed_and_sorted [⟨5, 1⟩, ⟨3, 2⟩] 0 "Avalanche").2.1 (by decide)⟩

/-- C5: in every month of a simulation (any number `k` of completed monthly
steps) with a nonnegative payment and debts whose balances and rates start
nonnegative, the total payment applied across all debts in the month's
payment walk — the drop in total balance — never exceeds `monthlyPayment`,
and the walk rewrites each debt in place (same identity, same rate) to a
balance in `[0, old balance]`: clamped at zero, never negative, before
interest accrues. -/
theorem payment_step_invariant (debts : List Debt) (P : ℚ) (method : String) (k : Nat)
    (hP : 0 ≤ P) (h : ∀ d ∈ debts, 0 ≤ d.balance ∧ 0 ≤ d.rate) :
    totalBal ((monthStep P)^[k] (attackOrder method debts.enum))
        - totalBal (payStep P ((monthStep P)^[k] (attackOrder method debts.enum))).2 ≤ P ∧
    List.Forall₂ (fun d d' : TaggedDebt =>
        d'.1 = d.1 ∧ d'.2.rate = d.2.rate ∧ 0 ≤ d'.2.balance ∧ d'.2.balance ≤ d.2.balance)
      ((monthStep P)^[k] (attackOrder method debts.enum))
      (payStep P ((monthStep P)^[k] (attackOrder method debts.enum))).2 := by
  have hgood := iterate_good P hP (attackOrder method debts.enum)
    (fun d hd => h d.2 (attackOrder_mem method debts d hd)) k
  constructor
  · have hsum := payStep_totalBal P ((monthStep P)^[k] (attackOrder method debts.enum))
    have hrem := payStep_fst_nonneg P ((monthStep P)^[k] (attackOrder method debts.enum)) hP
    linarith
  · exact payStep_forall₂ P _ hP fun d hd => (hgood d hd).1

/-- Witness for C5 at a concrete input (first month of a one-debt run). -/
theorem payment_step_invariant_witness :
    totalBal ((monthStep 5)^[0] (attackOrder "avalanche" ([⟨100, 0⟩] : List Debt).enum))
        - totalBal (payStep 5
            ((monthStep 5)^[0] (attackOrder "avalanche" ([⟨100, 0⟩] : List Debt).enum))).2 ≤ 5 ∧
    List.Forall₂ (fun d d' : TaggedDebt =>
        d'.1 = d.1 ∧ d'.2.rate = d.2.rate ∧ 0 ≤ d'.2.balance ∧ d'.2.balance ≤ d.2.balance)
      ((monthStep 5)^[0] (attackOrder "avalanche" ([⟨100, 0⟩] : List Debt).enum))
      (payStep 5 ((monthStep 5)^[0] (attackOrder "avalanche" ([⟨100, 0⟩] : List Debt).enum))).2 :=
  payment_step_invariant [⟨100, 0⟩] 5 "avalanche" 0 (by norm_num)
    (by
      intro d hd
      rw [List.mem_singleton] at hd
      subst hd
      exact ⟨by norm_num, le_rfl⟩)

/-- C2 (amended): the debt-payoff simulator always terminates with
`0 ≤ months ≤ 1000`; and whenever every debt's rate is at least some
`rmin > 0`, balances are nonnegative with positive total `B`, the payment is
nonnegative, and `monthlyPayment * (1 + rmin/12) ≤ (rmin/12) * B` — a
condition under which the total balance can never decrease, so the portfolio
can never clear — the run uses all 1000 months and returns the ceiling value
1000.  (Payment merely below the initial total monthly interest does not
suffice, because payments are applied before interest accrues.) -/
theorem payoffMonths_bounded_and_ceiling (debts : List Debt) (P rmin : ℚ) (method : String) :
    payoffMonths debts P method ≤ 1000 ∧
    (0 ≤ P → 0 < rmin → (∀ d ∈ debts, 0 ≤ d.balance ∧ rmin ≤ d.rate) →
      0 < totalDebt debts → P * (1 + rmin / 12) ≤ rmin / 12 * totalDebt debts →
      payoffMonths debts P method = 1000) := by
  constructor
  · exact runLoop_result_le P 1000 0 (attackOrder method debts.enum) (by omega)
  · intro hP hr hd htot hcond
    have hgood : ∀ d ∈ attackOrder method debts.enum, 0 ≤ d.2.balance ∧ rmin ≤ d.2.rate :=
      fun d hmem => hd d.2 (attackOrder_mem method debts d hmem)
    have htot2 : totalDebt debts ≤ totalBal (attackOrder method debts.enum) :=
      le_of_eq (attackOrder_totalBal method debts).symm
    exact runLoop_ceiling P rmin (totalDebt debts) hP hr htot hcond 1000 0
      (attackOrder method debts.enum) (by omega) hgood htot2

/-- Witness for C2: a single debt of 1200 at 10% annual rate with a
9-per-month payment (which the interest of 10 per month always outruns)
drives the run to the 1000-month ceiling. -/
theorem payoffMonths_bounded_and_ceiling_witness :
    payoffMonths [⟨1200, 1/10⟩] 9 "avalanche" = 1000 :=
  (payoffMonths_bounded_and_ceiling [⟨1200, 1/10⟩] 9 (1/10) "avalanche").2
    (by norm_num) (by norm_num)
    (by
      intro d hd
      rw [List.mem_singleton] at hd
      subst hd
      exact ⟨by norm_num, le_rfl⟩)
    (by norm_num [totalDebt])
    (by norm_num [totalDebt])

/-- C2 counterexample: a payment strictly below the portfolio's total monthly
interest does not force the 1000-month ceiling — payments land before
interest accrues, so a debt can still clear.  Here the single debt has
monthly interest 1.1 yet the payment of 1 clears it in month one. -/
theorem payoff_below_interest_counterexample :
    (1 : ℚ) < monthlyInterest [⟨1, 66/5⟩] ∧
    payoffMonths [⟨1, 66/5⟩] 1 "avalanche" = 1 := by
  constructor
  · norm_num [monthlyInterest]
  · have hs : attackOrder "avalanche" [(0, (⟨1, 66/5⟩ : Debt))] = [(0, ⟨1, 66/5⟩)] := by
      norm_num [attackOrder, List.mergeSort, debtLE, sortKey]
    have hm : monthStep 1 [(0, (⟨1, 66/5⟩ : Debt))] = [(0, ⟨0, 66/5⟩)] := by
      norm_num [monthStep, payStep, accrue]
    have hr : runLoop 1 1000 0 [(0, (⟨1, 66/5⟩ : Debt))] = (1, [(0, ⟨0, 66/5⟩)]) := by
      rw [show (1000 : Nat) = 999 + 1 from rfl,
        runLoop_go 1 999 0 _ (by norm_num [anyPositive]) (by norm_num), hm,
        runLoop_stop 1 998 1 _ (by norm_num [anyPositive])]
    show (debt_payoff [⟨1, 66/5⟩] 1 "avalanche").1 = 1
    simp [debt_payoff, hs, hr]

/-- C6 (amended): the closed form of `opportunity_cost` is exactly the
iterative accumulation that deposits after each period's growth,
`value = value * (1 + r) + periodicAmount` repeated `years * 12` times with
`r = annualRate / 12` — so the two agree within any tolerance; the spec's
written accumulation `value = (value + periodicAmount) * (1 + r)` instead
produces that value multiplied by the extra factor `(1 + r)`. -/
theorem opportunity_cost_iteration_equiv (a rate : ℚ) (years : Nat) :
    opportunity_cost a rate years = annuityIterEnd a (rate / 12) (years * 12) ∧
    annuityIterSpec a (rate / 12) (years * 12)
      = annuityIterEnd a (rate / 12) (years * 12) * (1 + rate / 12) := by
  refine ⟨?_, annuityIterSpec_eq_end a (rate / 12) (years * 12)⟩
  by_cases h : rate / 12 = 0
  · simp only [opportunity_cost]
    rw [if_pos h, h, annuityIterEnd_zero_rate]
  · simp only [opportunity_cost]
    rw [if_neg h, div_eq_iff h]
    exact (annuityIterEnd_mul a (rate / 12) (years * 12)).symm

/-- C6 counterexample: at the grid point annualRate = 1/5 (20 percent) and
years = 1, the closed form and the spec's written iterative accumulation
differ by a relative error of r/(1+r) = 1/61, far beyond tolerance 1e-6. -/
theorem closed_form_far_from_spec_iteration :
    ¬ |opportunity_cost 1 (1/5) 1 - annuityIterSpec 1 (1/5/12) (1*12)|
        ≤ 1/1000000 * |annuityIterSpec 1 (1/5/12) (1*12)| := by
  have hE := annuityIterEnd_mul 1 (1/5/12) (1*12)
  have hS := annuityIterSpec_eq_end 1 (1/5/12) (1*12)
  have hoc : opportunity_cost 1 (1/5) 1
      = 1 * ((1 + 1/5/12 : ℚ) ^ (1*12) - 1) / (1/5/12) := by
    simp only [opportunity_cost]
    rw [if_neg (by norm_num)]
  have hE2 : annuityIterEnd 1 (1/5/12) (1*12) = 60 * ((1 + 1/5/12 : ℚ) ^ (1*12) - 1) := by
    have h60 : (1/5/12 : ℚ) = 1/60 := by norm_num
    rw [h60] at hE ⊢
    linarith
  rw [not_le, hS, hE2, hoc, lt_abs]
  right
  rw [abs_of_nonneg (by norm_num)]
  norm_num

/-- C1 (refuted by the code): the Python simulator mutates the caller's debt
records through the shared dict references.  With one debt of balance 100 at
rate 0 and a payment of 100, the first call returns 1 month and leaves the
caller's record at balance 0 — not its original value — so a second call with
the same arguments (the same, now-mutated, records) returns 0 instead of 1. -/
theorem debt_payoff_mutates_caller :
    payoffMonths [⟨100, 0⟩] 100 "avalanche" = 1 ∧
    (debt_payoff [⟨100, 0⟩] 100 "avalanche").2 = [⟨0, 0⟩] ∧
    ((⟨0, 0⟩ : Debt) ≠ ⟨100, 0⟩) ∧
    payoffMonths (debt_payoff [⟨100, 0⟩] 100 "avalanche").2 100 "avalanche" = 0 := by
  have hs : attackOrder "avalanche" [(0, (⟨100, 0⟩ : Debt))] = [(0, ⟨100, 0⟩)] := by
    norm_num [attackOrder, List.mergeSort, debtLE, sortKey]
  have hm : monthStep 100 [(0, (⟨100, 0⟩ : Debt))] = [(0, ⟨0, 0⟩)] := by
    norm_num [monthStep, payStep, accrue]
  have hr : runLoop 100 1000 0 [(0, (⟨100, 0⟩ : Debt))] = (1, [(0, ⟨0, 0⟩)]) := by
    rw [show (1000 : Nat) = 999 + 1 from rfl,
      runLoop_go 100 999 0 _ (by norm_num [anyPositive]) (by norm_num), hm,
      runLoop_stop 100 998 1 _ (by norm_num [anyPositive])]
  have hcall : debt_payoff [⟨100, 0⟩] 100 "avalanche" = (1, [⟨0, 0⟩]) := by
    simp [debt_payoff, hs, hr, List.range_succ]
  have hs2 : attackOrder "avalanche" [(0, (⟨0, 0⟩ : Debt))] = [(0, ⟨0, 0⟩)] := by
    norm_num [attackOrder, List.mergeSort, debtLE, sortKey]
  have hr2 : runLoop 100 1000 0 [(0, (⟨0, 0⟩ : Debt))] = (0, [(0, ⟨0, 0⟩)]) := by
    rw [show (1000 : Nat) = 999 + 1 from rfl,
      runLoop_stop 100 999 0 _ (by norm_num [anyPositive])]
  refine ⟨by rw [payoffMonths, hcall], by rw [hcall], by norm_num [Debt.mk.injEq], ?_⟩
  rw [hcall]
  show (debt_payoff [⟨0, 0⟩] 100 "avalanche").1 = 0
  simp [debt_payoff, hs2, hr2]
